import Mathlib

set_option maxRecDepth 4000

/-!
Verification of the WOD renderer's render pipeline (`src/app/main.py`).

The pipeline (`render_markdown`) spawns the external validator
`wod check <submission>`, captures stdout/stderr as byte streams,
strictly UTF-8-decodes stdout, uses it as the markdown payload when
non-empty, otherwise decodes and uses stderr, renders the payload with
the `fenced_code` and `codehilite` extensions, and returns the original
submission together with the HTML fragment.

The two external collaborators — the validator process (reached through
`subprocess.run`) and the markdown renderer (`markdown.markdown`) — are
modelled as opaque function parameters.  Python's strict
`bytes.decode("utf-8")` is modelled by an explicit byte-level UTF-8
decoder (`utf8Decode`); the recursion over the byte list is made
structural by a fuel argument that starts at the list length and is
never exhausted, since each decoding step consumes at least one byte.
-/

/-- Python text: a sequence of Unicode code points. -/
abbrev Text := List Nat

/-- Code points of a Lean string literal, used to model Python string literals. -/
def strToText (s : String) : Text := s.data.map Char.toNat

/-- A Unicode scalar value: in range and not a surrogate.  Python's strict
UTF-8 codec decodes exactly sequences of scalar values. -/
def UnicodeScalar (c : Nat) : Prop := c < 0x110000 ∧ ¬(0xD800 ≤ c ∧ c < 0xE000)

instance (c : Nat) : Decidable (UnicodeScalar c) := by
  unfold UnicodeScalar; infer_instance

/-- A UTF-8 continuation byte (`10xxxxxx`). -/
def isCont (b : Nat) : Bool := 0x80 ≤ b && b < 0xC0

/-- Decode the remainder of a two-byte sequence whose lead byte is `b`
(already known to lie in `0xC2–0xDF`, which rules out overlong forms). -/
def utf8DecodeTwo (b : Nat) : List Nat → Option (Nat × List Nat)
  | b1 :: bs =>
    if isCont b1 then some ((b - 0xC0) * 0x40 + (b1 - 0x80), bs) else none
  | [] => none

/-- Decode the remainder of a three-byte sequence with lead byte `b`
(`0xE0–0xEF`); rejects overlong forms (below U+0800) and surrogates. -/
def utf8DecodeThree (b : Nat) : List Nat → Option (Nat × List Nat)
  | b1 :: b2 :: bs =>
    if isCont b1 && isCont b2 then
      let c := (b - 0xE0) * 0x1000 + (b1 - 0x80) * 0x40 + (b2 - 0x80)
      if 0x800 ≤ c ∧ ¬(0xD800 ≤ c ∧ c < 0xE000) then some (c, bs) else none
    else none
  | _ => none

/-- Decode the remainder of a four-byte sequence with lead byte `b`
(`0xF0–0xF4`); rejects overlong forms and values above U+10FFFF. -/
def utf8DecodeFour (b : Nat) : List Nat → Option (Nat × List Nat)
  | b1 :: b2 :: b3 :: bs =>
    if isCont b1 && isCont b2 && isCont b3 then
      let c := (b - 0xF0) * 0x40000 + (b1 - 0x80) * 0x1000 +
               (b2 - 0x80) * 0x40 + (b3 - 0x80)
      if 0x10000 ≤ c ∧ c < 0x110000 then some (c, bs) else none
    else none
  | _ => none

/-- Decode one code point from lead byte `b` followed by `bs`, returning the
code point and the remaining bytes; `none` on any malformed sequence.
Lead bytes `0x80–0xC1` (stray continuation bytes and the two overlong
two-byte lead bytes) and `0xF5–0xFF` are invalid outright. -/
def utf8DecodeChar (b : Nat) (bs : List Nat) : Option (Nat × List Nat) :=
  if b < 0x80 then some (b, bs)
  else if b < 0xC2 then none
  else if b < 0xE0 then utf8DecodeTwo b bs
  else if b < 0xF0 then utf8DecodeThree b bs
  else if b < 0xF5 then utf8DecodeFour b bs
  else none

/-- Worker for `utf8Decode`; `fuel` only makes the recursion structural and
is never exhausted when it starts at the list length. -/
def utf8DecodeAux : Nat → List Nat → Option Text
  | _, [] => some []
  | 0, _ :: _ => none
  | fuel + 1, b :: bs =>
    match utf8DecodeChar b bs with
    | none => none
    | some (c, rest) => (utf8DecodeAux fuel rest).map (c :: ·)

/-- Strict UTF-8 decoding of a byte sequence into code points, modelling
Python's `bytes.decode("utf-8")` (strict error mode): rejects invalid lead
bytes, truncated sequences, overlong forms, surrogates and values above
U+10FFFF; `none` models a raised `UnicodeDecodeError`. -/
def utf8Decode (bs : List Nat) : Option Text := utf8DecodeAux bs.length bs

/-- The standard UTF-8 encoding of one code point (reference definition used
to state what "valid UTF-8" means, independent of the decoder). -/
def utf8EncodeChar (c : Nat) : List Nat :=
  if c < 0x80 then [c]
  else if c < 0x800 then [0xC0 + c / 0x40, 0x80 + c % 0x40]
  else if c < 0x10000 then
    [0xE0 + c / 0x1000, 0x80 + c / 0x40 % 0x40, 0x80 + c % 0x40]
  else
    [0xF0 + c / 0x40000, 0x80 + c / 0x1000 % 0x40, 0x80 + c / 0x40 % 0x40,
     0x80 + c % 0x40]

/-- The standard UTF-8 encoding of a code-point sequence. -/
def utf8Encode (cps : Text) : List Nat := (cps.map utf8EncodeChar).flatten

/-- Result of a completed `subprocess.run` call: both captured byte streams
and the exit status (`capture_output=True, check=False`). -/
structure ProcResult where
  stdout : List Nat
  stderr : List Nat
  returncode : Int
  deriving DecidableEq

/-- Failure to spawn the validator process (`FileNotFoundError` and kin,
raised by `subprocess.run` before any output exists). -/
inductive LaunchFailure
  | fileNotFound
  deriving DecidableEq

/-- The errors the pipeline itself can propagate: `ProcessLaunchError`
(the validator executable missing/unspawnable) and `DecodeError`
(`UnicodeDecodeError` from strict decoding of a captured stream). -/
inductive PipelineError
  | processLaunch
  | decode
  deriving DecidableEq

/-- The environment's process-running behaviour: what `subprocess.run`
does for a given argv (each element a single argv token, no shell). -/
def RunEnv : Type := List Text → Except LaunchFailure ProcResult

/-- The external markdown renderer: a total function from a payload and the
enabled extension list to an HTML fragment (`markdown.markdown`). -/
def MarkdownRenderer : Type := Text → List Text → Text

/-- The extension list the source passes: `["fenced_code", "codehilite"]`. -/
def markdownExtensions : List Text :=
  [strToText "fenced_code", strToText "codehilite"]

/-- The argv of the validator invocation, line 27 of `main.py`:
`["wod", "check", markdown_text]`, the submission as one argv token. -/
def wodCheckCmd (markdown_text : Text) : List Text :=
  [strToText "wod", strToText "check", markdown_text]

/-- Strict decoding of one captured stream, with failure as `DecodeError`. -/
def decodeStream (bytes : List Nat) : Except PipelineError Text :=
  match utf8Decode bytes with
  | none => .error .decode
  | some t => .ok t

/-- Lines 28–31 of `main.py`: `if ok := result.stdout.decode("utf-8"):
to_render = ok else: to_render = result.stderr.decode("utf-8")` — stdout is
decoded first; a non-empty (truthy) result is the payload, otherwise stderr
is decoded and used. -/
def selectPayload (result : ProcResult) : Except PipelineError Text := do
  let ok ← decodeStream result.stdout
  if ok ≠ [] then pure ok else decodeStream result.stderr

/-- The value returned to the template: the echoed submission and the
rendered HTML fragment. -/
structure RenderResult where
  markdown_text : Text
  rendered_html : Text
  deriving DecidableEq

/-- The render pipeline, `render_markdown` of `src/app/main.py`:
spawn `wod check <markdown_text>`, select the payload from the captured
streams, render it with the two extensions, and return the original
submission with the HTML.  Errors short-circuit (nothing is rendered). -/
def render_markdown (run : RunEnv) (md : MarkdownRenderer) (markdown_text : Text) :
    Except PipelineError RenderResult :=
  match run (wodCheckCmd markdown_text) with
  | .error _ => .error .processLaunch
  | .ok result =>
    match selectPayload result with
    | .error e => .error e
    | .ok to_render =>
      .ok { markdown_text := markdown_text
            rendered_html := md to_render markdownExtensions }

example : utf8Decode [104, 105] = some [104, 105] := by decide
example : utf8Decode [0xFF] = none := by decide
example : utf8Decode [0xC3, 0xA9] = some [0xE9] := by decide
example : utf8Decode [0xC0, 0x80] = none := by decide
example : utf8Decode [0xED, 0xA0, 0x80] = none := by decide
example : utf8Decode [0xF0, 0x9F, 0x98, 0x80] = some [0x1F600] := by decide
theorem utf8DecodeChar_length (b : Nat) (bs : List Nat) (c : Nat) (rest : List Nat)
    (h : utf8DecodeChar b bs = some (c, rest)) : rest.length ≤ bs.length := by
  unfold utf8DecodeChar at h
  split at h
  · cases h; exact Nat.le_refl _
  · split at h
    · exact absurd h (by simp)
    · split at h
      · cases bs with
        | nil => simp [utf8DecodeTwo] at h
        | cons b1 bs2 =>
          simp only [utf8DecodeTwo] at h
          split at h
          · cases h; simp only [List.length_cons]; omega
          · exact absurd h (by simp)
      · split at h
        · cases bs with
          | nil => simp [utf8DecodeThree] at h
          | cons b1 bs2 =>
            cases bs2 with
            | nil => simp [utf8DecodeThree] at h
            | cons b2 bs3 =>
              simp only [utf8DecodeThree] at h
              split at h
              · split at h
                · cases h; simp only [List.length_cons]; omega
                · exact absurd h (by simp)
              · exact absurd h (by simp)
        · split at h
          · cases bs with
            | nil => simp [utf8DecodeFour] at h
            | cons b1 bs2 =>
              cases bs2 with
              | nil => simp [utf8DecodeFour] at h
              | cons b2 bs3 =>
                cases bs3 with
                | nil => simp [utf8DecodeFour] at h
                | cons b3 bs4 =>
                  simp only [utf8DecodeFour] at h
                  split at h
                  · split at h
                    · cases h; simp only [List.length_cons]; omega
                    · exact absurd h (by simp)
                  · exact absurd h (by simp)
          · exact absurd h (by simp)

theorem utf8DecodeAux_eq (f1 : Nat) : ∀ (f2 : Nat) (bs : List Nat),
    bs.length ≤ f1 → bs.length ≤ f2 → utf8DecodeAux f1 bs = utf8DecodeAux f2 bs := by
  induction f1 with
  | zero =>
    intro f2 bs h1 _
    cases bs with
    | nil => cases f2 <;> rfl
    | cons b bs2 => simp at h1
  | succ f ih =>
    intro f2 bs h1 h2
    cases bs with
    | nil => cases f2 <;> rfl
    | cons b bs2 =>
      cases f2 with
      | zero => simp at h2
      | succ g2 =>
        cases hdc : utf8DecodeChar b bs2 with
        | none => simp only [utf8DecodeAux, hdc]
        | some cr =>
          obtain ⟨c, rest⟩ := cr
          simp only [utf8DecodeAux, hdc]
          have hr := utf8DecodeChar_length b bs2 c rest hdc
          simp only [List.length_cons] at h1 h2
          rw [ih g2 rest (by omega) (by omega)]

theorem utf8Decode_cons (b : Nat) (bs : List Nat) :
    utf8Decode (b :: bs) =
      (utf8DecodeChar b bs).bind (fun cr => (utf8Decode cr.2).map (cr.1 :: ·)) := by
  show utf8DecodeAux (b :: bs).length (b :: bs) = _
  simp only [List.length_cons]
  cases hdc : utf8DecodeChar b bs with
  | none => simp only [utf8DecodeAux, hdc, Option.none_bind]
  | some cr =>
    obtain ⟨c, rest⟩ := cr
    simp only [utf8DecodeAux, hdc, Option.some_bind]
    have hr := utf8DecodeChar_length b bs c rest hdc
    rw [utf8DecodeAux_eq bs.length rest.length rest hr (Nat.le_refl _)]
    rfl

theorem utf8DecodeChar_sound (b : Nat) (bs : List Nat) (c : Nat) (rest : List Nat)
    (h : utf8DecodeChar b bs = some (c, rest)) :
    UnicodeScalar c ∧ utf8EncodeChar c ++ rest = b :: bs := by
  unfold utf8DecodeChar at h
  split at h
  · obtain ⟨rfl, rfl⟩ : b = c ∧ bs = rest := by
      simpa [Prod.ext_iff] using h
    constructor
    · constructor <;> omega
    · rename_i hb
      rw [utf8EncodeChar, if_pos hb]
      rfl
  · split at h
    · exact absurd h (by simp)
    · split at h
      · cases bs with
        | nil => simp [utf8DecodeTwo] at h
        | cons b1 bs2 =>
          simp only [utf8DecodeTwo] at h
          split at h
          · rename_i hcont
            simp only [isCont, Bool.and_eq_true, decide_eq_true_eq] at hcont
            obtain ⟨rfl, rfl⟩ : (b - 0xC0) * 0x40 + (b1 - 0x80) = c ∧ bs2 = rest := by
              simpa [Prod.ext_iff] using h
            constructor
            · constructor <;> omega
            · rw [utf8EncodeChar, if_neg (by omega), if_pos (by omega)]
              simp only [List.cons_append, List.nil_append, List.cons.injEq]
              refine ⟨by omega, by omega, trivial⟩
          · exact absurd h (by simp)
      · split at h
        · cases bs with
          | nil => simp [utf8DecodeThree] at h
          | cons b1 bs2 =>
            cases bs2 with
            | nil => simp [utf8DecodeThree] at h
            | cons b2 bs3 =>
              simp only [utf8DecodeThree] at h
              split at h
              · rename_i hcont
                simp only [isCont, Bool.and_eq_true, decide_eq_true_eq] at hcont
                split at h
                · rename_i hrange
                  obtain ⟨rfl, rfl⟩ :
                      (b - 0xE0) * 0x1000 + (b1 - 0x80) * 0x40 + (b2 - 0x80) = c ∧
                        bs3 = rest := by
                    simpa [Prod.ext_iff] using h
                  constructor
                  · constructor <;> omega
                  · rw [utf8EncodeChar, if_neg (by omega), if_neg (by omega),
                        if_pos (by omega)]
                    simp only [List.cons_append, List.nil_append, List.cons.injEq]
                    refine ⟨by omega, by omega, by omega, trivial⟩
                · exact absurd h (by simp)
              · exact absurd h (by simp)
        · split at h
          · cases bs with
            | nil => simp [utf8DecodeFour] at h
            | cons b1 bs2 =>
              cases bs2 with
              | nil => simp [utf8DecodeFour] at h
              | cons b2 bs3 =>
                cases bs3 with
                | nil => simp [utf8DecodeFour] at h
                | cons b3 bs4 =>
                  simp only [utf8DecodeFour] at h
                  split at h
                  · rename_i hcont
                    simp only [isCont, Bool.and_eq_true, decide_eq_true_eq] at hcont
                    split at h
                    · rename_i hrange
                      obtain ⟨rfl, rfl⟩ :
                          (b - 0xF0) * 0x40000 + (b1 - 0x80) * 0x1000 +
                              (b2 - 0x80) * 0x40 + (b3 - 0x80) = c ∧ bs4 = rest := by
                        simpa [Prod.ext_iff] using h
                      constructor
                      · constructor <;> omega
                      · rw [utf8EncodeChar, if_neg (by omega), if_neg (by omega),
                            if_neg (by omega)]
                        simp only [List.cons_append, List.nil_append, List.cons.injEq]
                        refine ⟨by omega, by omega, by omega, by omega, trivial⟩
                    · exact absurd h (by simp)
                  · exact absurd h (by simp)
          · exact absurd h (by simp)

theorem utf8Decode_encodeChar (c : Nat) (hc : UnicodeScalar c) (bs : List Nat) :
    utf8Decode (utf8EncodeChar c ++ bs) = (utf8Decode bs).map (c :: ·) := by
  obtain ⟨hlt, hsur⟩ := hc
  by_cases h1 : c < 0x80
  · rw [utf8EncodeChar, if_pos h1]
    simp only [List.cons_append, List.nil_append]
    rw [utf8Decode_cons]
    have hdc : utf8DecodeChar c bs = some (c, bs) := by
      simp only [utf8DecodeChar]
      rw [if_pos h1]
    rw [hdc, Option.some_bind]
  · by_cases h2 : c < 0x800
    · rw [utf8EncodeChar, if_neg h1, if_pos h2]
      simp only [List.cons_append, List.nil_append]
      rw [utf8Decode_cons]
      have hdc : utf8DecodeChar (0xC0 + c / 0x40) ((0x80 + c % 0x40) :: bs) =
          some (c, bs) := by
        simp only [utf8DecodeChar]
        rw [if_neg (by omega), if_neg (by omega), if_pos (by omega)]
        simp only [utf8DecodeTwo]
        rw [if_pos (by simp only [isCont, Bool.and_eq_true, decide_eq_true_eq]; omega)]
        simp only [Option.some.injEq, Prod.mk.injEq]
        exact ⟨by omega, trivial⟩
      rw [hdc, Option.some_bind]
    · by_cases h3 : c < 0x10000
      · rw [utf8EncodeChar, if_neg h1, if_neg h2, if_pos h3]
        simp only [List.cons_append, List.nil_append]
        rw [utf8Decode_cons]
        have hdc : utf8DecodeChar (0xE0 + c / 0x1000)
            ((0x80 + c / 0x40 % 0x40) :: (0x80 + c % 0x40) :: bs) = some (c, bs) := by
          simp only [utf8DecodeChar]
          rw [if_neg (by omega), if_neg (by omega), if_neg (by omega), if_pos (by omega)]
          simp only [utf8DecodeThree]
          rw [if_pos (by simp only [isCont, Bool.and_eq_true, decide_eq_true_eq]; omega)]
          rw [if_pos (by omega)]
          simp only [Option.some.injEq, Prod.mk.injEq]
          exact ⟨by omega, trivial⟩
        rw [hdc, Option.some_bind]
      · rw [utf8EncodeChar, if_neg h1, if_neg h2, if_neg h3]
        simp only [List.cons_append, List.nil_append]
        rw [utf8Decode_cons]
        have hdc : utf8DecodeChar (0xF0 + c / 0x40000)
            ((0x80 + c / 0x1000 % 0x40) :: (0x80 + c / 0x40 % 0x40) ::
              (0x80 + c % 0x40) :: bs) = some (c, bs) := by
          simp only [utf8DecodeChar]
          rw [if_neg (by omega), if_neg (by omega), if_neg (by omega), if_neg (by omega),
              if_pos (by omega)]
          simp only [utf8DecodeFour]
          rw [if_pos (by simp only [isCont, Bool.and_eq_true, decide_eq_true_eq]; omega)]
          rw [if_pos (by omega)]
          simp only [Option.some.injEq, Prod.mk.injEq]
          exact ⟨by omega, trivial⟩
        rw [hdc, Option.some_bind]

theorem utf8Encode_cons (c : Nat) (cps : Text) :
    utf8Encode (c :: cps) = utf8EncodeChar c ++ utf8Encode cps := by
  simp [utf8Encode]

theorem utf8Decode_utf8Encode (cps : Text) (h : ∀ c ∈ cps, UnicodeScalar c) :
    utf8Decode (utf8Encode cps) = some cps := by
  induction cps with
  | nil => rfl
  | cons c cps2 ih =>
    rw [utf8Encode_cons, utf8Decode_encodeChar c (h c (by simp)) _,
        ih (fun d hd => h d (by simp [hd]))]
    rfl

theorem utf8Decode_sound_aux (n : Nat) : ∀ (bs : List Nat), bs.length ≤ n →
    ∀ cps, utf8Decode bs = some cps →
      (∀ c ∈ cps, UnicodeScalar c) ∧ utf8Encode cps = bs := by
  induction n with
  | zero =>
    intro bs hlen cps h
    cases bs with
    | nil =>
      simp only [utf8Decode, utf8DecodeAux, Option.some.injEq] at h
      subst h
      exact ⟨by simp, rfl⟩
    | cons b bs2 => simp at hlen
  | succ n ih =>
    intro bs hlen cps h
    cases bs with
    | nil =>
      simp only [utf8Decode, utf8DecodeAux, Option.some.injEq] at h
      subst h
      exact ⟨by simp, rfl⟩
    | cons b bs2 =>
      rw [utf8Decode_cons] at h
      cases hdc : utf8DecodeChar b bs2 with
      | none => rw [hdc] at h; exact absurd h (by simp)
      | some cr =>
        obtain ⟨c, rest⟩ := cr
        rw [hdc] at h
        simp only [Option.some_bind] at h
        cases hrest : utf8Decode rest with
        | none => rw [hrest] at h; exact absurd h (by simp)
        | some cps2 =>
          rw [hrest] at h
          simp only [Option.map_some', Option.some.injEq] at h
          subst h
          obtain ⟨hscalar, henc⟩ := utf8DecodeChar_sound b bs2 c rest hdc
          have hlen2 : rest.length ≤ n := by
            have := utf8DecodeChar_length b bs2 c rest hdc
            simp only [List.length_cons] at hlen
            omega
          obtain ⟨hs2, he2⟩ := ih rest hlen2 cps2 hrest
          refine ⟨?_, ?_⟩
          · intro d hd
            rcases List.mem_cons.mp hd with hd | hd
            · exact hd ▸ hscalar
            · exact hs2 d hd
          · rw [utf8Encode_cons, he2, henc]

theorem utf8Decode_sound (bs : List Nat) (cps : Text) (h : utf8Decode bs = some cps) :
    (∀ c ∈ cps, UnicodeScalar c) ∧ utf8Encode cps = bs :=
  utf8Decode_sound_aux bs.length bs (Nat.le_refl _) cps h

theorem decodeStream_ok (bs : List Nat) (t : Text) (h : utf8Decode bs = some t) :
    decodeStream bs = .ok t := by
  simp [decodeStream, h]

theorem decodeStream_err (bs : List Nat) (h : utf8Decode bs = none) :
    decodeStream bs = .error .decode := by
  simp [decodeStream, h]

theorem selectPayload_stdout (r : ProcResult) (o : Text)
    (ho : utf8Decode r.stdout = some o) (hne : o ≠ []) :
    selectPayload r = .ok o := by
  simp [selectPayload, decodeStream, ho, hne, Bind.bind, Except.bind, Pure.pure, Except.pure]

theorem selectPayload_stderr (r : ProcResult)
    (ho : utf8Decode r.stdout = some []) :
    selectPayload r = decodeStream r.stderr := by
  simp [selectPayload, decodeStream, ho, Bind.bind, Except.bind]

theorem selectPayload_stdout_err (r : ProcResult)
    (ho : utf8Decode r.stdout = none) :
    selectPayload r = .error .decode := by
  simp [selectPayload, decodeStream, ho, Bind.bind, Except.bind]

theorem render_markdown_launch (run : RunEnv) (md : MarkdownRenderer) (s : Text)
    (f : LaunchFailure) (h : run (wodCheckCmd s) = .error f) :
    render_markdown run md s = .error .processLaunch := by
  simp [render_markdown, h]

theorem render_markdown_ok (run : RunEnv) (md : MarkdownRenderer) (s : Text)
    (r : ProcResult) (p : Text) (hr : run (wodCheckCmd s) = .ok r)
    (hp : selectPayload r = .ok p) :
    render_markdown run md s = .ok ⟨s, md p markdownExtensions⟩ := by
  simp [render_markdown, hr, hp]

theorem render_markdown_payload_err (run : RunEnv) (md : MarkdownRenderer) (s : Text)
    (r : ProcResult) (e : PipelineError) (hr : run (wodCheckCmd s) = .ok r)
    (hp : selectPayload r = .error e) :
    render_markdown run md s = .error e := by
  simp [render_markdown, hr, hp]

/-- C1: for every submission, the payload handed to the markdown renderer is
the decoded stdout text of the validator process when that decoded text is
non-empty, and otherwise the decoded stderr text — which is the empty string
when stderr is empty as well. -/
theorem c1_payload_selection (run : RunEnv) (md : MarkdownRenderer) (sub : Text)
    (r : ProcResult) (o e : Text)
    (hrun : run (wodCheckCmd sub) = .ok r)
    (ho : utf8Decode r.stdout = some o)
    (he : utf8Decode r.stderr = some e) :
    render_markdown run md sub =
      .ok ⟨sub, md (if o ≠ [] then o else e) markdownExtensions⟩ := by
  by_cases hne : o = []
  · subst hne
    rw [if_neg (by simp)]
    exact render_markdown_ok run md sub r e hrun
      ((selectPayload_stderr r ho).trans (decodeStream_ok _ _ he))
  · rw [if_pos hne]
    exact render_markdown_ok run md sub r o hrun (selectPayload_stdout r o ho hne)

theorem c1_payload_selection_witness :
    render_markdown (fun _ => Except.ok ⟨[], [101, 114, 114], 1⟩)
      (fun t _ => t) [97] = Except.ok ⟨[97], [101, 114, 114]⟩ := by
  have h := c1_payload_selection (fun _ => Except.ok ⟨[], [101, 114, 114], 1⟩)
    (fun t _ => t) [97] ⟨[], [101, 114, 114], 1⟩ [] [101, 114, 114]
    rfl (by decide) (by decide)
  simpa using h

/-- C2: a validator launch failure makes the pipeline fail with
`ProcessLaunchError`, and undecodable captured output (on stdout, or on
stderr when stdout is empty) makes it fail with `DecodeError`; the error is
the pipeline's whole result, so it propagates uncaught and no render result
is produced. -/
theorem c2_error_propagation (run : RunEnv) (md : MarkdownRenderer) (sub : Text) :
    (∀ f, run (wodCheckCmd sub) = .error f →
      render_markdown run md sub = .error .processLaunch) ∧
    (∀ r, run (wodCheckCmd sub) = .ok r → utf8Decode r.stdout = none →
      render_markdown run md sub = .error .decode) ∧
    (∀ r, run (wodCheckCmd sub) = .ok r → utf8Decode r.stdout = some [] →
      utf8Decode r.stderr = none →
      render_markdown run md sub = .error .decode) := by
  refine ⟨?_, ?_, ?_⟩
  · intro f h
    exact render_markdown_launch run md sub f h
  · intro r hr ho
    exact render_markdown_payload_err run md sub r _ hr (selectPayload_stdout_err r ho)
  · intro r hr ho he
    exact render_markdown_payload_err run md sub r _ hr
      ((selectPayload_stderr r ho).trans (decodeStream_err _ he))

theorem c2_error_propagation_witness :
    render_markdown (fun _ => Except.error LaunchFailure.fileNotFound)
        (fun t _ => t) [97] = Except.error PipelineError.processLaunch ∧
    render_markdown (fun _ => Except.ok ⟨[0xFF], [], 0⟩)
        (fun t _ => t) [97] = Except.error PipelineError.decode ∧
    render_markdown (fun _ => Except.ok ⟨[], [0xFF], 0⟩)
        (fun t _ => t) [97] = Except.error PipelineError.decode :=
  ⟨(c2_error_propagation _ _ _).1 LaunchFailure.fileNotFound rfl,
   (c2_error_propagation _ _ _).2.1 ⟨[0xFF], [], 0⟩ rfl (by decide),
   (c2_error_propagation _ _ _).2.2 ⟨[], [0xFF], 0⟩ rfl (by decide) (by decide)⟩

/-- C3: whenever the pipeline returns a result, the echoed input is exactly
the original submission, unaltered. -/
theorem c3_echo_unaltered (run : RunEnv) (md : MarkdownRenderer) (sub : Text)
    (res : RenderResult) (h : render_markdown run md sub = .ok res) :
    res.markdown_text = sub := by
  unfold render_markdown at h
  split at h
  · exact absurd h (by simp)
  · split at h
    · exact absurd h (by simp)
    · simp only [Except.ok.injEq] at h
      rw [← h]

theorem c3_echo_unaltered_witness :
    RenderResult.markdown_text ⟨[97, 98], [97, 98]⟩ = [97, 98] :=
  c3_echo_unaltered (fun _ => Except.ok ⟨[97, 98], [], 0⟩) (fun t _ => t)
    [97, 98] ⟨[97, 98], [97, 98]⟩ rfl

/-- C4: for every run whose payload selection succeeds, the returned HTML
fragment is the markdown renderer applied to the selected payload with
exactly the fenced-code-block and syntax-highlighting extensions enabled,
and this rendering step cannot fail (the pipeline returns a result). -/
theorem c4_render_extensions (run : RunEnv) (md : MarkdownRenderer) (sub : Text)
    (r : ProcResult) (p : Text)
    (hrun : run (wodCheckCmd sub) = .ok r) (hp : selectPayload r = .ok p) :
    render_markdown run md sub = .ok ⟨sub, md p markdownExtensions⟩ ∧
    markdownExtensions = [strToText "fenced_code", strToText "codehilite"] :=
  ⟨render_markdown_ok run md sub r p hrun hp, rfl⟩

theorem c4_render_extensions_witness :
    render_markdown (fun _ => Except.ok ⟨[104, 105], [], 0⟩)
        (fun t _ => t) [97] = Except.ok ⟨[97], [104, 105]⟩ ∧
    markdownExtensions = [strToText "fenced_code", strToText "codehilite"] :=
  (c4_render_extensions (fun _ => Except.ok ⟨[104, 105], [], 0⟩) (fun t _ => t)
    [97] ⟨[104, 105], [], 0⟩ [104, 105] rfl rfl)

/-- C5: the validator is invoked as the command `wod check <submission>` with
the submission as a single argv token, for every submission including the
empty string; the pipeline consults the environment only at that one argv. -/
theorem c5_invocation (sub : Text) :
    wodCheckCmd sub = [strToText "wod", strToText "check", sub] ∧
    ∀ (run1 run2 : RunEnv) (md : MarkdownRenderer),
      run1 (wodCheckCmd sub) = run2 (wodCheckCmd sub) →
      render_markdown run1 md sub = render_markdown run2 md sub := by
  refine ⟨rfl, ?_⟩
  intro run1 run2 md h
  unfold render_markdown
  rw [h]

theorem c5_invocation_witness :
    wodCheckCmd [] = [strToText "wod", strToText "check", []] ∧
    render_markdown (fun _ => Except.ok ⟨[104], [], 0⟩) (fun t _ => t) [] =
      render_markdown
        (fun argv => if argv = wodCheckCmd [] then Except.ok ⟨[104], [], 0⟩
                     else Except.error LaunchFailure.fileNotFound)
        (fun t _ => t) [] :=
  ⟨(c5_invocation []).1, (c5_invocation []).2 _ _ _ (by simp)⟩

/-- C6: the pipeline's result is independent of the validator's exit status —
two runs producing the same stdout and stderr byte streams but any exit
codes (including non-zero) yield identical results, and a non-zero exit
status alone is never turned into an error. -/
theorem c6_exit_status_ignored (run1 run2 : RunEnv) (md : MarkdownRenderer)
    (sub : Text) (r1 r2 : ProcResult)
    (h1 : run1 (wodCheckCmd sub) = .ok r1) (h2 : run2 (wodCheckCmd sub) = .ok r2)
    (hout : r1.stdout = r2.stdout) (herr : r1.stderr = r2.stderr) :
    render_markdown run1 md sub = render_markdown run2 md sub := by
  have hsp : selectPayload r1 = selectPayload r2 := by
    obtain ⟨o1, e1, x1⟩ := r1
    obtain ⟨o2, e2, x2⟩ := r2
    dsimp only at hout herr
    subst hout
    subst herr
    rfl
  simp only [render_markdown, h1, h2, hsp]

theorem c6_exit_status_ignored_witness :
    render_markdown (fun _ => Except.ok ⟨[104], [], 0⟩) (fun t _ => t) [97] =
      render_markdown (fun _ => Except.ok ⟨[104], [], 7⟩) (fun t _ => t) [97] :=
  c6_exit_status_ignored (fun _ => Except.ok ⟨[104], [], 0⟩)
    (fun _ => Except.ok ⟨[104], [], 7⟩) (fun t _ => t) [97]
    ⟨[104], [], 0⟩ ⟨[104], [], 7⟩ rfl rfl rfl rfl

/-- C7: with a deterministic validator — modelled by the runs drawing on one
and the same environment function — invoking the pipeline twice on an
identical submission yields byte-identical HTML output both times. -/
theorem c7_deterministic (run : RunEnv) (md : MarkdownRenderer) (sub : Text)
    (res1 res2 : RenderResult)
    (h1 : render_markdown run md sub = .ok res1)
    (h2 : render_markdown run md sub = .ok res2) :
    res1.rendered_html = res2.rendered_html := by
  rw [h1] at h2
  simp only [Except.ok.injEq] at h2
  rw [h2]

theorem c7_deterministic_witness :
    RenderResult.rendered_html ⟨[97], [104]⟩ = RenderResult.rendered_html ⟨[97], [104]⟩ :=
  c7_deterministic (fun _ => Except.ok ⟨[104], [], 0⟩) (fun t _ => t) [97]
    ⟨[97], [104]⟩ ⟨[97], [104]⟩ rfl rfl

/-- C8: the empty submission does not crash the pipeline — the validator is
invoked with an empty third argv token and the same stdout-else-stderr
selection logic runs, producing a result exactly as for any other
submission. -/
theorem c8_empty_submission (run : RunEnv) (md : MarkdownRenderer)
    (r : ProcResult) (o e : Text)
    (hrun : run (wodCheckCmd []) = .ok r)
    (ho : utf8Decode r.stdout = some o)
    (he : utf8Decode r.stderr = some e) :
    wodCheckCmd [] = [strToText "wod", strToText "check", []] ∧
    render_markdown run md [] =
      .ok ⟨[], md (if o ≠ [] then o else e) markdownExtensions⟩ := by
  refine ⟨rfl, ?_⟩
  by_cases hne : o = []
  · subst hne
    rw [if_neg (by simp)]
    exact render_markdown_ok run md [] r e hrun
      ((selectPayload_stderr r ho).trans (decodeStream_ok _ _ he))
  · rw [if_pos hne]
    exact render_markdown_ok run md [] r o hrun (selectPayload_stdout r o ho hne)

theorem c8_empty_submission_witness :
    wodCheckCmd [] = [strToText "wod", strToText "check", []] ∧
    render_markdown (fun _ => Except.ok ⟨[], [110, 111], 2⟩) (fun t _ => t) [] =
      Except.ok ⟨[], [110, 111]⟩ := by
  have h := c8_empty_submission (fun _ => Except.ok ⟨[], [110, 111], 2⟩)
    (fun t _ => t) ⟨[], [110, 111], 2⟩ [] [110, 111] rfl (by decide) (by decide)
  exact ⟨h.1, by simpa using h.2⟩

/-- C9: when the decoded stdout text is non-empty, the stderr bytes are never
decoded — the pipeline succeeds with the stdout payload whatever the stderr
bytes are, so a decode error can arise from stderr only when stdout is
empty. -/
theorem c9_stderr_untouched (run : RunEnv) (md : MarkdownRenderer) (sub : Text)
    (r : ProcResult) (o : Text)
    (hrun : run (wodCheckCmd sub) = .ok r)
    (ho : utf8Decode r.stdout = some o) (hne : o ≠ []) :
    render_markdown run md sub = .ok ⟨sub, md o markdownExtensions⟩ :=
  render_markdown_ok run md sub r o hrun (selectPayload_stdout r o ho hne)

theorem c9_stderr_untouched_witness :
    utf8Decode [0xFF] = none ∧
    render_markdown (fun _ => Except.ok ⟨[104, 105], [0xFF], 1⟩)
      (fun t _ => t) [97] = Except.ok ⟨[97], [104, 105]⟩ :=
  ⟨by decide,
   c9_stderr_untouched (fun _ => Except.ok ⟨[104, 105], [0xFF], 1⟩)
     (fun t _ => t) [97] ⟨[104, 105], [0xFF], 1⟩ [104, 105] rfl (by decide)
     (by decide)⟩

/-- C10: stream decoding is strict UTF-8 — decoding a captured byte sequence
succeeds exactly when the bytes are the UTF-8 encoding of a sequence of
Unicode scalar values, in which case it yields exactly that sequence, and it
fails with a decode error exactly when they are not. -/
theorem c10_strict_utf8 (bs : List Nat) :
    (∀ cps, decodeStream bs = .ok cps →
      (∀ c ∈ cps, UnicodeScalar c) ∧ utf8Encode cps = bs) ∧
    (∀ cps, (∀ c ∈ cps, UnicodeScalar c) → utf8Encode cps = bs →
      decodeStream bs = .ok cps) ∧
    (decodeStream bs = .error .decode ↔
      ¬ ∃ cps, (∀ c ∈ cps, UnicodeScalar c) ∧ utf8Encode cps = bs) := by
  refine ⟨?_, ?_, ?_, ?_⟩
  · intro cps h
    have hd : utf8Decode bs = some cps := by
      unfold decodeStream at h
      cases hbs : utf8Decode bs with
      | none =>
        rw [hbs] at h
        exact absurd h (by simp)
      | some t =>
        rw [hbs] at h
        have ht : t = cps := by simpa using h
        rw [ht]
    exact utf8Decode_sound bs cps hd
  · intro cps hval henc
    have hd : utf8Decode bs = some cps := henc ▸ utf8Decode_utf8Encode cps hval
    unfold decodeStream
    rw [hd]
  · intro h hex
    obtain ⟨cps, hval, henc⟩ := hex
    have hd : utf8Decode bs = some cps := henc ▸ utf8Decode_utf8Encode cps hval
    unfold decodeStream at h
    rw [hd] at h
    exact absurd h (by simp)
  · intro h
    cases hbs : utf8Decode bs with
    | none => unfold decodeStream; rw [hbs]
    | some t =>
      obtain ⟨hval, henc⟩ := utf8Decode_sound bs t hbs
      exact absurd ⟨t, hval, henc⟩ h

theorem c10_strict_utf8_witness :
    ((∀ c ∈ [0x41, 0xE9, 0x1F600], UnicodeScalar c) →
      utf8Encode [0x41, 0xE9, 0x1F600] = [0x41, 0xC3, 0xA9, 0xF0, 0x9F, 0x98, 0x80] →
      decodeStream [0x41, 0xC3, 0xA9, 0xF0, 0x9F, 0x98, 0x80] =
        .ok [0x41, 0xE9, 0x1F600]) ∧
    decodeStream [0x41, 0xC3, 0xA9, 0xF0, 0x9F, 0x98, 0x80] =
      .ok [0x41, 0xE9, 0x1F600] :=
  ⟨(c10_strict_utf8 [0x41, 0xC3, 0xA9, 0xF0, 0x9F, 0x98, 0x80]).2.1
      [0x41, 0xE9, 0x1F600],
   (c10_strict_utf8 [0x41, 0xC3, 0xA9, 0xF0, 0x9F, 0x98, 0x80]).2.1
      [0x41, 0xE9, 0x1F600] (by decide) (by decide)⟩
